import Mathlib

/-!
Verification development for the tileview terminal multiplexer.

This file gives a shallow embedding of the per-tile terminal-emulation
engine of `src/tile.rs` (the module `tile` of the repository): the line
buffer and wrap algorithm (`Tile::push_stdout`), the viewport
(`Tile::max_scroll`, `Tile::scroll_up`, `Tile::scroll_down`,
`Tile::scroll_full_up`, `Tile::scroll_full_down`), geometry updates
(`Tile::reposition`, `Tile::resize`), selection (`Tile::locate`,
`Tile::click`, `Tile::hold`, `Tile::copy`) and the spawn path of
`Tile::start`.

Rust `String`s are modelled as `List Char` (Rust iterates over them with
`.chars()` throughout), `Vec<String>` as `List (List Char)`, `u16`/`usize`
counters as `Nat`, and `isize` as `Int`.  The `pty` handle is modelled as
`Option Unit` (present or absent); the channel sender is modelled by
returning the list of messages that are sent.
-/

namespace Tileview

/-- `stdout.last_mut().unwrap().push(c)` style access: apply `f` to the last
element of the list.  On the empty list (where the Rust `unwrap` would
panic) this is the identity; the reachability invariant proved below shows
the buffer is never empty. -/
def updateLast (f : List Char → List Char) : List (List Char) → List (List Char)
  | [] => []
  | [l] => [f l]
  | l :: ls => l :: updateLast f ls

/-- `c >= '\u{fe00}' && c <= '\u{fe0f}'` from `Tile::push_stdout` /
`Tile::render_content`: emoji variation selectors have no width. -/
def isVariationSelector (c : Char) : Bool :=
  0xfe00 ≤ c.toNat && c.toNat ≤ 0xfe0f

/-- The state of a tile (`struct Tile` in `src/tile.rs`), restricted to the
fields the verified operations read or write.  The `command` and `sender`
fields are omitted: the sender is modelled by returning sent messages. -/
structure Tile where
  /-- Content of the command's stdout and stderr (`stdout: Vec<String>`). -/
  stdout : List (List Char)
  /-- Coordinates of the tile (`coords: (u16, u16)`). -/
  coords : Nat × Nat
  /-- Top left corner of the tile (`outer_position`). -/
  outer_position : Nat × Nat
  /-- Top left corner of the content (`inner_position`). -/
  inner_position : Nat × Nat
  /-- Size of the tile (`outer_size`). -/
  outer_size : Nat × Nat
  /-- Size of the inside of the tile (`inner_size`); `.1` is the width. -/
  inner_size : Nat × Nat
  /-- The number of lines that the stdout is scrolled (`scroll: isize`). -/
  scroll : Int
  /-- Whether arriving characters move the cursor (`counting: bool`). -/
  counting : Bool
  /-- The number of the current column (`column_number: u16`). -/
  column_number : Nat
  /-- The PTY of the running command (`pty: Option<Pty>`). -/
  pty : Option Unit
  /-- Whether the tile should autoscroll (`sticky: bool`). -/
  sticky : Bool
  /-- The line and character index that was clicked (`clicked`). -/
  clicked : Option (Nat × Nat)
  /-- The line and character index that was released (`released`). -/
  released : Option (Nat × Nat)
  deriving Repr, DecidableEq

/-- `TileBuilder::build`: the freshly built tile.  The builder's `Option`
plumbing is dropped: all parameters are supplied directly.  `u16`
subtractions are modelled by truncated `Nat` subtraction. -/
def build (coords position size : Nat × Nat) : Tile where
  stdout := [[]]
  coords := coords
  outer_position := position
  inner_position := (position.1 + 2, position.2 + 3)
  outer_size := size
  inner_size := (size.1 - 4, size.2 - 5)
  scroll := 0
  counting := true
  column_number := 0
  pty := none
  sticky := true
  clicked := none
  released := none

/-- A freshly built tile with inner size `(w, h)` (outer size `(w+4, h+5)`). -/
def freshTile (w h : Nat) : Tile :=
  build (0, 0) (1, 1) (w + 4, h + 5)

/-- One iteration of the character loop of `Tile::push_stdout`. -/
def pushChar (t : Tile) (c : Char) : Tile :=
  let t := if c = '\x1b' then { t with counting := false } else t
  let t :=
    if c = '\n' then
      { t with stdout := updateLast (fun l => l ++ [c]) t.stdout ++ [[]],
               column_number := 0 }
    else if c = '\r' then
      { t with stdout := updateLast (fun l => l ++ [c]) t.stdout,
               column_number := 0 }
    else
      let t := { t with stdout := updateLast (fun l => l ++ [c]) t.stdout }
      if t.counting && !isVariationSelector c then
        if t.column_number + 1 = t.inner_size.1 then
          { t with stdout := t.stdout ++ [[]], column_number := 0 }
        else
          { t with column_number := t.column_number + 1 }
      else t
  if c = 'm' ∨ c = 'K' then { t with counting := true } else t

/-- `Tile::max_scroll`. -/
def max_scroll (t : Tile) : Int :=
  max 0 ((t.stdout.length : Int) - (t.inner_size.2 : Int) - 1)

/-- `Tile::push_stdout`: the character loop followed by the sticky
autoscroll. -/
def push_stdout (t : Tile) (content : List Char) : Tile :=
  let t := content.foldl pushChar t
  if t.sticky then { t with scroll := max_scroll t } else t

/-- `Tile::scroll_up`. -/
def scroll_up (t : Tile) (step : Int) : Tile :=
  { t with sticky := false, scroll := max 0 (t.scroll - step) }

/-- `Tile::scroll_down`. -/
def scroll_down (t : Tile) (step : Int) : Tile :=
  let m := max_scroll t
  let s := min m (t.scroll + step)
  { t with scroll := s, sticky := if s = m then true else t.sticky }

/-- `Tile::scroll_full_up`. -/
def scroll_full_up (t : Tile) : Tile :=
  { t with sticky := false, scroll := 0 }

/-- `Tile::scroll_full_down`. -/
def scroll_full_down (t : Tile) : Tile :=
  { t with sticky := true, scroll := max_scroll t }

/-- `Tile::kill`. -/
def kill (t : Tile) : Tile :=
  { t with pty := none }

/-- `Tile::reposition`. -/
def reposition (t : Tile) (p : Nat × Nat) : Tile :=
  { t with outer_position := p, inner_position := (p.1 + 2, p.2 + 3) }

/-- `Tile::resize`: update the geometry, then re-flow the stored lines
through `push_stdout` starting from a one-empty-line buffer.  The
pty resize call has no effect on the modelled state.  Note the Rust code
does not reset `column_number` or `counting` before re-pushing. -/
def resize (t : Tile) (s : Nat × Nat) : Tile :=
  let t := { t with outer_size := s, inner_size := (s.1 - 4, s.2 - 5) }
  let old := t.stdout
  let t := { t with stdout := [[]] }
  old.foldl push_stdout t

/-- The character loop of `Tile::locate`, counting the column.  Arguments:
target column `i`, the total number of carriage returns of the line, then
the mutable loop state `carriage_returns`, `counter`, `current`,
`counting`, and the remaining characters.  Returns the final `counter`. -/
def locateLoop (i total_cr : Nat) :
    Nat → Nat → Nat → Bool → List Char → Nat
  | _, counter, _, _, [] => counter
  | cr, counter, current, counting, c :: rest =>
    if c = '\n' then counter
    else
      let counting := if c = '\x1b' then false else counting
      if c = '\r' then
        locateLoop i total_cr (cr + 1) (counter + 1) 0 counting rest
      else if i ≤ current ∧ total_cr = cr then counter
      else
        let current := if counting then current + 1 else current
        let counting := if c = 'm' ∨ c = 'K' then true else counting
        locateLoop i total_cr cr (counter + 1) current counting rest

/-- `Tile::locate`: find the line and column of a terminal position.  The
`self.scroll as usize` cast is modelled by `Int.toNat` and the `usize`
subtraction `stdout.len() - 1` by truncated `Nat` subtraction (it would
underflow on an empty buffer; the invariant below shows the buffer is
never empty). -/
def locate (t : Tile) (p : Nat × Nat) : Nat × Nat :=
  let i := if t.inner_position.1 < p.1 then p.1 - t.inner_position.1 else 0
  let j := if t.inner_position.2 < p.2 then p.2 - t.inner_position.2 else 0
  let line_index := min (j + t.scroll.toNat) (t.stdout.length - 1)
  let line := t.stdout.getD line_index []
  let total_cr := (line.filter (fun c => c == '\r')).length
  (line_index, locateLoop i total_cr 0 0 0 true line)

/-- `Tile::click`. -/
def click (t : Tile) (p : Nat × Nat) : Tile :=
  let lc := locate t p
  { t with clicked := some lc, released := some lc }

/-- `Tile::hold`. -/
def hold (t : Tile) (p : Nat × Nat) : Tile :=
  { t with released := some (locate t p) }

/-- The state of the extraction loop of `Tile::copy`: the accumulated
buffers (`current_buffer` is the last one), the `counting` flag and the
running `count` of characters of the current line. -/
structure CopySt where
  buffers : List (List Char)
  counting : Bool
  count : Nat
  deriving Repr, DecidableEq

/-- The inner character loop of `Tile::copy` over one stored line.
Arguments: the `enumerate` index `line_index`, the index
`line_end - line_start` of the last selected line, `col_start`, `col_end`,
the total number of carriage returns of this line, then the state, the
running `carriage_returns` count, and the characters.  The `break` of the
Rust loop is modelled by returning the state without visiting the rest of
the line. -/
def copyLine (line_index line_last col_start col_end total_cr : Nat) :
    CopySt → Nat → List Char → CopySt
  | st, _, [] => st
  | st, cr, c :: rest =>
    let count := st.count + 1
    let cr := if c = '\r' then cr + 1 else cr
    if line_index = 0 ∧ count ≤ col_start then
      copyLine line_index line_last col_start col_end total_cr
        { st with count := count } cr rest
    else
      let counting := if c = '\x1b' then false else st.counting
      let st :=
        if counting then
          if c = '\r' then
            { st with buffers := updateLast (fun _ => []) st.buffers,
                      counting := counting, count := count }
          else if c = '\n' then
            { st with buffers := st.buffers ++ [[]],
                      counting := counting, count := 0 }
          else
            { st with buffers := updateLast (fun l => l ++ [c]) st.buffers,
                      counting := counting, count := count }
        else { st with counting := counting, count := count }
      let st := if c = 'm' ∨ c = 'K' then { st with counting := true } else st
      if cr = total_cr ∧ line_index = line_last ∧ st.count = col_end then st
      else copyLine line_index line_last col_start col_end total_cr st cr rest

/-- The extraction part of `Tile::copy`, after normalization of the
selection bounds: iterate the loop over the selected window of lines.
The per-line `carriage_returns` counter restarts at `0` on each line. -/
def copyExtract (t : Tile) (line_start line_end col_start col_end : Nat) :
    List (List Char) :=
  let lines := (t.stdout.drop line_start).take (line_end - line_start + 1)
  (lines.enum.foldl
    (fun st p =>
      copyLine p.1 (line_end - line_start) col_start col_end
        ((p.2.filter (fun c => c == '\r')).length) st 0 p.2)
    { buffers := [[]], counting := true, count := 0 }).buffers

/-- `Tile::copy`: the text that the selection extracts, as a list of
logical lines.  The Rust function accumulates this text in `buffers` (the
clipboard delivery itself is a `TODO` in the source); the early returns,
which copy nothing, are modelled as the empty list. -/
def copy (t : Tile) : List (List Char) :=
  match t.clicked, t.released with
  | some clicked, some released =>
    if clicked = released then []
    else
      let lineSE :=
        if clicked.1 < released.1 then (clicked.1, released.1)
        else (released.1, clicked.1)
      let colSE :=
        if clicked.1 < released.1 then (clicked.2, released.2)
        else if released.1 < clicked.1 then (released.2, clicked.2)
        else if clicked.2 < released.2 then (clicked.2, released.2)
        else (released.2, clicked.2)
      copyExtract t lineSE.1 lineSE.2 colSE.1 colSE.2
  | _, _ => []

/-- The messages of the event channel used by `Tile::start`
(`Msg::Stdout`, `Msg::Stderr`, `Msg::AddFinishLine`). -/
inductive Msg where
  | stdout (coords : Nat × Nat) (content : List Char)
  | stderr (coords : Nat × Nat) (content : List Char)
  | addFinishLine (coords : Nat × Nat) (success : Bool)
  deriving Repr, DecidableEq

/-- `termion::style::Bold`. -/
def styleBold : List Char := '\x1b' :: "[1m".toList

/-- `termion::style::Reset`. -/
def styleReset : List Char := '\x1b' :: "[m".toList

/-- `termion::color::Red.fg_str()`. -/
def colorRedFg : List Char := '\x1b' :: "[38;5;1m".toList

/-- `termion::color::Reset.fg_str()`. -/
def colorResetFg : List Char := '\x1b' :: "[39m".toList

/-- The synthetic error line sent by `Tile::start` when spawning fails:
`format!("{}{}Couldn't run command: {}\r{}", Bold, Red, e, Reset)`. -/
def spawnErrorLine (e : List Char) : List Char :=
  styleBold ++ colorRedFg ++ "Couldn".toList ++ [Char.ofNat 39] ++
    "t run command: ".toList ++ e ++ ['\r'] ++ styleReset

/-- The separator line built by the spawn-failure branch of `Tile::start`:
`inner_size.0 - 1` box-drawing dashes. -/
def spawnSepLine (t : Tile) : List Char :=
  List.replicate (t.inner_size.1 - 1) '─'

/-- The outcome of `Command::spawn` in `Tile::start`. -/
inductive SpawnResult where
  | ok
  | err (e : List Char)
  deriving Repr, DecidableEq

/-- `Tile::start`, as a function of the spawn outcome.  Returns the
updated tile, the messages sent synchronously on the calling thread, and
the number of reader threads spawned.  On success the two reader threads
are started and `self.pty = Some(pty)`; on failure the error line and the
separator line are sent and the function returns early. -/
def start (t : Tile) (r : SpawnResult) : Tile × List Msg × Nat :=
  match r with
  | .err e =>
    (t,
     [Msg.stdout t.coords (spawnErrorLine e),
      Msg.stdout t.coords
        ('\n' :: (colorRedFg ++ spawnSepLine t ++ colorResetFg ++ ['\n']))],
     0)
  | .ok => ({ t with pty := some () }, [], 2)

/-- The mutating tile operations, for stating reachability invariants. -/
inductive TileOp where
  | push (content : List Char)
  | resize (size : Nat × Nat)
  | reposition (pos : Nat × Nat)
  | scrollUp (step : Int)
  | scrollDown (step : Int)
  | scrollFullUp
  | scrollFullDown
  | click (pos : Nat × Nat)
  | hold (pos : Nat × Nat)
  | kill
  | start (r : SpawnResult)

/-- Apply one tile operation. -/
def applyOp (t : Tile) : TileOp → Tile
  | .push content => push_stdout t content
  | .resize s => resize t s
  | .reposition p => reposition t p
  | .scrollUp step => scroll_up t step
  | .scrollDown step => scroll_down t step
  | .scrollFullUp => scroll_full_up t
  | .scrollFullDown => scroll_full_down t
  | .click p => click t p
  | .hold p => hold t p
  | .kill => kill t
  | .start r => (start t r).1

/-- The scroll operations of claim C5. -/
inductive ScrollOp where
  | up (step : Int)
  | down (step : Int)

/-- The step argument of a scroll operation. -/
def ScrollOp.step : ScrollOp → Int
  | .up s => s
  | .down s => s

/-- Apply one scroll operation. -/
def applyScrollOp (t : Tile) : ScrollOp → Tile
  | .up s => scroll_up t s
  | .down s => scroll_down t s

/-- Apply a sequence of scroll operations. -/
def applyScrollOps (t : Tile) (ops : List ScrollOp) : Tile :=
  ops.foldl applyScrollOp t

/-- A sample tile with five buffered lines and inner size `(2, 1)`, used to
instantiate theorems with hypotheses at concrete states. -/
def wTile : Tile :=
  { freshTile 2 1 with stdout := [[], [], [], [], []] }

/-- A plain character in the sense of the spec's wrap properties: not the
escape introducer, not a line feed, not a carriage return, and not an
emoji variation selector (which `push_stdout` deliberately does not
count). -/
def PlainChar (c : Char) : Prop :=
  c ≠ '\x1b' ∧ c ≠ '\n' ∧ c ≠ '\r' ∧ isVariationSelector c = false

instance (c : Char) : Decidable (PlainChar c) :=
  inferInstanceAs
    (Decidable (c ≠ '\x1b' ∧ c ≠ '\n' ∧ c ≠ '\r' ∧ isVariationSelector c = false))

/-! ## Basic lemmas about `updateLast` and the fields of `pushChar` -/

theorem updateLast_concat (f : List Char → List Char) (L : List (List Char))
    (a : List Char) : updateLast f (L ++ [a]) = L ++ [f a] := by
  induction L with
  | nil => rfl
  | cons l ls ih =>
    cases ls with
    | nil => rfl
    | cons b bs => simpa [updateLast] using ih

theorem length_updateLast (f : List Char → List Char) (L : List (List Char)) :
    (updateLast f L).length = L.length := by
  induction L with
  | nil => rfl
  | cons l ls ih =>
    cases ls with
    | nil => rfl
    | cons b bs => simpa [updateLast] using ih

theorem pushChar_sticky (t : Tile) (c : Char) :
    (pushChar t c).sticky = t.sticky := by
  simp only [pushChar]
  split_ifs <;> rfl

theorem pushChar_scroll (t : Tile) (c : Char) :
    (pushChar t c).scroll = t.scroll := by
  simp only [pushChar]
  split_ifs <;> rfl

theorem pushChar_inner_size (t : Tile) (c : Char) :
    (pushChar t c).inner_size = t.inner_size := by
  simp only [pushChar]
  split_ifs <;> rfl

theorem foldl_pushChar_sticky (s : List Char) (t : Tile) :
    (s.foldl pushChar t).sticky = t.sticky := by
  induction s generalizing t with
  | nil => rfl
  | cons c cs ih => rw [List.foldl_cons, ih, pushChar_sticky]

theorem foldl_pushChar_scroll (s : List Char) (t : Tile) :
    (s.foldl pushChar t).scroll = t.scroll := by
  induction s generalizing t with
  | nil => rfl
  | cons c cs ih => rw [List.foldl_cons, ih, pushChar_scroll]

theorem foldl_pushChar_inner_size (s : List Char) (t : Tile) :
    (s.foldl pushChar t).inner_size = t.inner_size := by
  induction s generalizing t with
  | nil => rfl
  | cons c cs ih => rw [List.foldl_cons, ih, pushChar_inner_size]

theorem push_stdout_stdout (t : Tile) (content : List Char) :
    (push_stdout t content).stdout = (content.foldl pushChar t).stdout := by
  simp only [push_stdout]
  split <;> rfl

theorem push_stdout_sticky (t : Tile) (content : List Char) :
    (push_stdout t content).sticky = t.sticky := by
  simp only [push_stdout]
  split <;> simp [foldl_pushChar_sticky]

/-! ## Claim C5 support -/

theorem max_scroll_nonneg (t : Tile) : 0 ≤ max_scroll t :=
  le_max_left 0 _

theorem applyScrollOp_max_scroll (t : Tile) (op : ScrollOp) :
    max_scroll (applyScrollOp t op) = max_scroll t := by
  cases op <;> rfl

theorem applyScrollOp_scroll_invariant (t : Tile) (op : ScrollOp)
    (h0 : 0 ≤ t.scroll) (h1 : t.scroll ≤ max_scroll t) (hs : 0 ≤ op.step) :
    0 ≤ (applyScrollOp t op).scroll ∧
      (applyScrollOp t op).scroll ≤ max_scroll (applyScrollOp t op) := by
  rw [applyScrollOp_max_scroll]
  cases op with
  | up s =>
    dsimp only [applyScrollOp, scroll_up, ScrollOp.step] at *
    exact ⟨le_max_left _ _,
      max_le (max_scroll_nonneg t) (le_trans (sub_le_self _ hs) h1)⟩
  | down s =>
    dsimp only [applyScrollOp, scroll_down, ScrollOp.step] at *
    exact ⟨le_min (max_scroll_nonneg t) (add_nonneg h0 hs), min_le_left _ _⟩

/-- C5: `max_scroll()` equals `max(0, lines - inner_height - 1)`, hence is
never negative, and the invariant `0 ≤ scroll ≤ max_scroll` is preserved
by every sequence of `scroll_up`/`scroll_down` calls with nonnegative
steps. -/
theorem max_scroll_formula_and_scroll_invariant :
    (∀ t : Tile,
        max_scroll t =
            max 0 ((t.stdout.length : Int) - (t.inner_size.2 : Int) - 1) ∧
          0 ≤ max_scroll t) ∧
      ∀ (t : Tile) (ops : List ScrollOp), 0 ≤ t.scroll →
        t.scroll ≤ max_scroll t → (∀ op ∈ ops, 0 ≤ op.step) →
        0 ≤ (applyScrollOps t ops).scroll ∧
          (applyScrollOps t ops).scroll ≤ max_scroll (applyScrollOps t ops) := by
  refine ⟨fun t => ⟨rfl, max_scroll_nonneg t⟩, fun t ops => ?_⟩
  induction ops generalizing t with
  | nil => intro h0 h1 _; exact ⟨h0, h1⟩
  | cons op ops ih =>
    intro h0 h1 hsteps
    have hstep : 0 ≤ op.step := hsteps op (List.mem_cons_self op ops)
    have h' := applyScrollOp_scroll_invariant t op h0 h1 hstep
    exact ih (applyScrollOp t op) h'.1 h'.2
      fun o ho => hsteps o (List.mem_cons_of_mem op ho)

/-- Witness for C5 at a concrete tile and operation sequence. -/
theorem max_scroll_formula_and_scroll_invariant_witness :
    0 ≤ (applyScrollOps wTile [ScrollOp.down 7, ScrollOp.up 2]).scroll ∧
      (applyScrollOps wTile [ScrollOp.down 7, ScrollOp.up 2]).scroll ≤
        max_scroll (applyScrollOps wTile [ScrollOp.down 7, ScrollOp.up 2]) :=
  max_scroll_formula_and_scroll_invariant.2 wTile
    [ScrollOp.down 7, ScrollOp.up 2] (by decide) (by decide) (by decide)

/-- C6: `scroll_up` clears `sticky` and clamps at `0`; `scroll_down`
clamps at `max_scroll` and sets `sticky` exactly when the clamped scroll
equals `max_scroll` (leaving it unchanged otherwise);
`scroll_full_up` clears `sticky` and zeroes the scroll; `scroll_full_down`
sets `sticky` and moves the scroll to `max_scroll`. -/
theorem scroll_ops_sticky_clamp : ∀ (t : Tile) (step : Int),
    (scroll_up t step).sticky = false ∧
    (scroll_up t step).scroll = max 0 (t.scroll - step) ∧
    (scroll_down t step).scroll = min (max_scroll t) (t.scroll + step) ∧
    ((scroll_down t step).scroll = max_scroll t →
      (scroll_down t step).sticky = true) ∧
    ((scroll_down t step).scroll ≠ max_scroll t →
      (scroll_down t step).sticky = t.sticky) ∧
    (scroll_full_up t).sticky = false ∧ (scroll_full_up t).scroll = 0 ∧
    (scroll_full_down t).sticky = true ∧
    (scroll_full_down t).scroll = max_scroll t := by
  intro t step
  refine ⟨rfl, rfl, rfl, ?_, ?_, rfl, rfl, rfl, rfl⟩
  · intro h
    simp only [scroll_down] at h ⊢
    rw [if_pos h]
  · intro h
    simp only [scroll_down] at h ⊢
    rw [if_neg h]

/-- Witness for C6 at a concrete tile: scrolling down to the bottom sets
`sticky`, a short scroll down leaves it unchanged, scrolling up clears
it. -/
theorem scroll_ops_sticky_clamp_witness :
    (scroll_down wTile 7).sticky = true ∧
      (scroll_down wTile 1).sticky = wTile.sticky ∧
      (scroll_up wTile 1).sticky = false :=
  ⟨(scroll_ops_sticky_clamp wTile 7).2.2.2.1 (by decide),
   (scroll_ops_sticky_clamp wTile 1).2.2.2.2.1 (by decide),
   (scroll_ops_sticky_clamp wTile 1).1⟩

/-! ## Claim C7 support -/

theorem push_stdout_not_sticky (t : Tile) (content : List Char)
    (h : t.sticky = false) :
    (push_stdout t content).scroll = t.scroll ∧
      (push_stdout t content).sticky = false := by
  have hs : (content.foldl pushChar t).sticky = false := by
    rw [foldl_pushChar_sticky]; exact h
  simp only [push_stdout, hs]
  exact ⟨foldl_pushChar_scroll content t, hs⟩

theorem foldl_push_stdout_not_sticky (ss : List (List Char)) (t : Tile)
    (h : t.sticky = false) :
    (ss.foldl push_stdout t).scroll = t.scroll ∧
      (ss.foldl push_stdout t).sticky = false := by
  induction ss generalizing t with
  | nil => exact ⟨rfl, h⟩
  | cons s ss ih =>
    rw [List.foldl_cons]
    have h1 := push_stdout_not_sticky t s h
    have h2 := ih (push_stdout t s) h1.2
    exact ⟨h2.1.trans h1.1, h2.2⟩

/-- C7: while `sticky` is set, every `push` pins the scroll to
`max_scroll`; after a `scroll_up`, `sticky` is cleared and any further
sequence of pushes leaves the scroll value unchanged. -/
theorem sticky_autoscroll_spec :
    (∀ (t : Tile) (content : List Char), t.sticky = true →
        (push_stdout t content).scroll = max_scroll (push_stdout t content)) ∧
      ∀ (t : Tile) (step : Int) (ss : List (List Char)),
        (scroll_up t step).sticky = false ∧
          (ss.foldl push_stdout (scroll_up t step)).scroll =
            (scroll_up t step).scroll := by
  constructor
  · intro t content h
    have hs : (content.foldl pushChar t).sticky = true := by
      rw [foldl_pushChar_sticky]; exact h
    simp only [push_stdout, hs, if_true]
    rfl
  · intro t step ss
    exact ⟨rfl, (foldl_push_stdout_not_sticky ss (scroll_up t step) rfl).1⟩

/-- Witness for C7: a sticky tile is pinned to the bottom by a push, and
after a `scroll_up` two further pushes leave the scroll unchanged. -/
theorem sticky_autoscroll_spec_witness :
    (push_stdout wTile ['a']).scroll = max_scroll (push_stdout wTile ['a']) ∧
      ([['b'], ['c']].foldl push_stdout (scroll_up wTile 1)).scroll =
        (scroll_up wTile 1).scroll :=
  ⟨sticky_autoscroll_spec.1 wTile ['a'] (by decide),
   (sticky_autoscroll_spec.2 wTile 1 [['b'], ['c']]).2⟩

/-- C9: when spawning fails, `start` spawns no reader threads, sends the
synthetic error line followed by the separator line as ordinary stdout
messages tagged with the tile's coordinates, and leaves the tile (and in
particular its absent pty handle) unchanged. -/
theorem start_spawn_failure (t : Tile) (e : List Char) (h : t.pty = none) :
    (start t (SpawnResult.err e)).2.2 = 0 ∧
    (start t (SpawnResult.err e)).1 = t ∧
    (start t (SpawnResult.err e)).1.pty = none ∧
    (start t (SpawnResult.err e)).2.1 =
      [Msg.stdout t.coords (spawnErrorLine e),
       Msg.stdout t.coords
         ('\n' :: (colorRedFg ++ spawnSepLine t ++ colorResetFg ++ ['\n']))] :=
  ⟨rfl, rfl, h, rfl⟩

/-- Witness for C9 at a concrete tile and spawn error. -/
theorem start_spawn_failure_witness :
    (start wTile (SpawnResult.err "boom".toList)).2.2 = 0 ∧
      (start wTile (SpawnResult.err "boom".toList)).1.pty = none :=
  ⟨(start_spawn_failure wTile "boom".toList rfl).1,
   (start_spawn_failure wTile "boom".toList rfl).2.2.1⟩

/-! ## Claim C10 support -/

theorem le_length_pushChar (t : Tile) (c : Char) :
    t.stdout.length ≤ (pushChar t c).stdout.length := by
  simp only [pushChar]
  split_ifs <;> simp [length_updateLast]

theorem le_length_foldl_pushChar (s : List Char) (t : Tile) :
    t.stdout.length ≤ (s.foldl pushChar t).stdout.length := by
  induction s generalizing t with
  | nil => exact le_rfl
  | cons c cs ih =>
    rw [List.foldl_cons]
    exact le_trans (le_length_pushChar t c) (ih (pushChar t c))

theorem le_length_push_stdout (t : Tile) (content : List Char) :
    t.stdout.length ≤ (push_stdout t content).stdout.length := by
  rw [push_stdout_stdout]
  exact le_length_foldl_pushChar content t

theorem le_length_foldl_push_stdout (ss : List (List Char)) (t : Tile) :
    t.stdout.length ≤ (ss.foldl push_stdout t).stdout.length := by
  induction ss generalizing t with
  | nil => exact le_rfl
  | cons s ss ih =>
    rw [List.foldl_cons]
    exact le_trans (le_length_push_stdout t s) (ih (push_stdout t s))

theorem applyOp_stdout_ne (t : Tile) (op : TileOp) (h : t.stdout ≠ []) :
    (applyOp t op).stdout ≠ [] := by
  cases op with
  | push content =>
    rw [← List.length_pos] at h ⊢
    exact lt_of_lt_of_le h (le_length_push_stdout t content)
  | resize s =>
    rw [← List.length_pos]
    have h2 := le_length_foldl_push_stdout t.stdout
      { t with outer_size := s, inner_size := (s.1 - 4, s.2 - 5),
               stdout := [[]] }
    exact lt_of_lt_of_le Nat.one_pos h2
  | reposition p => exact h
  | scrollUp step => exact h
  | scrollDown step => exact h
  | scrollFullUp => exact h
  | scrollFullDown => exact h
  | click p => exact h
  | hold p => exact h
  | kill => exact h
  | start r => cases r <;> exact h

/-- C10: from a freshly built tile, every sequence of tile operations
leaves the `stdout` buffer nonempty.  Hence `last_mut().unwrap()` inside
`push_stdout` and the index `stdout.len() - 1` inside `locate` are always
well defined. -/
theorem stdout_buffer_nonempty (ops : List TileOp)
    (coords position size : Nat × Nat) :
    (ops.foldl applyOp (build coords position size)).stdout ≠ [] := by
  have key : ∀ (ops : List TileOp) (t : Tile), t.stdout ≠ [] →
      (ops.foldl applyOp t).stdout ≠ [] := by
    intro ops
    induction ops with
    | nil => intro t h; exact h
    | cons op ops ih =>
      intro t h
      rw [List.foldl_cons]
      exact ih (applyOp t op) (applyOp_stdout_ne t op h)
  exact key ops _ (by simp [build])

/-! ## Pushing plain characters: the wrap algorithm -/

theorem pushChar_plain (t : Tile) (c : Char) (hc : PlainChar c)
    (hcnt : t.counting = true) :
    ((pushChar t c).stdout =
        if t.column_number + 1 = t.inner_size.1 then
          updateLast (fun l => l ++ [c]) t.stdout ++ [[]]
        else updateLast (fun l => l ++ [c]) t.stdout) ∧
      ((pushChar t c).column_number =
        if t.column_number + 1 = t.inner_size.1 then 0
        else t.column_number + 1) ∧
      (pushChar t c).counting = true := by
  obtain ⟨h1, h2, h3, h4⟩ := hc
  simp only [pushChar, if_neg h1, if_neg h2, if_neg h3, h4, hcnt]
  split_ifs <;> simp_all

/-- Pushing a sequence of plain characters into a tile that starts from
the fresh buffer `[""], column 0, counting`: the buffer length, the column
counter, the last line and the concatenated content are all determined by
Euclidean division of the input length by the inner width. -/
theorem plain_fold_spec (w hgt : Nat) (hw : 0 < w) (s : List Char)
    (hs : ∀ c ∈ s, PlainChar c) (t0 : Tile) (hb : t0.stdout = [[]])
    (hcol : t0.column_number = 0) (hcnt : t0.counting = true)
    (hsz : t0.inner_size = (w, hgt)) :
    (s.foldl pushChar t0).counting = true ∧
    (s.foldl pushChar t0).stdout.length = s.length / w + 1 ∧
    (s.foldl pushChar t0).column_number = s.length % w ∧
    (s.foldl pushChar t0).stdout.getLast? =
      some (s.drop (w * (s.length / w))) ∧
    (s.foldl pushChar t0).stdout.flatten = s := by
  induction s using List.reverseRecOn with
  | nil => simp [hb, hcol, hcnt]
  | append_singleton s c ih =>
    have hs' : ∀ x ∈ s, PlainChar x := fun x hx =>
      hs x (List.mem_append_left [c] hx)
    have hc : PlainChar c := hs c (List.mem_append_right s (List.mem_singleton_self c))
    obtain ⟨hcnt', hlen, hcol', hlast, hflat⟩ := ih hs'
    set T := s.foldl pushChar t0 with hT
    have hTsz : T.inner_size = (w, hgt) := by
      rw [hT, foldl_pushChar_inner_size]; exact hsz
    have hdecomp : w * (s.length / w) + s.length % w = s.length :=
      Nat.div_add_mod s.length w
    have hr : s.length % w < w := Nat.mod_lt s.length hw
    rcases List.eq_nil_or_concat T.stdout with hnil | ⟨L, b, hLb⟩
    · rw [hnil] at hlen; simp at hlen
    rw [List.concat_eq_append] at hLb
    have hLlen : L.length + 1 = s.length / w + 1 := by
      rw [← hlen, hLb]; simp
    have hb' : b = s.drop (w * (s.length / w)) := by
      rw [hLb, List.getLast?_concat] at hlast
      exact Option.some.inj hlast
    have hflat' : L.flatten ++ b = s := by
      rw [hLb] at hflat; simpa using hflat
    obtain ⟨hps, hpc, hpn⟩ := pushChar_plain T c hc hcnt'
    rw [List.foldl_append, List.foldl_cons, List.foldl_nil]
    rw [hTsz] at hps hpc
    simp only at hps hpc
    by_cases hwrap : T.column_number + 1 = w
    · -- the new character exactly fills the line: a new empty line starts
      rw [if_pos hwrap] at hps hpc
      have hlw : s.length + 1 = w * (s.length / w + 1) := by
        rw [Nat.mul_succ]
        rw [hcol'] at hwrap
        omega
      have hdiv : (s.length + 1) / w = s.length / w + 1 := by
        rw [hlw, Nat.mul_div_cancel_left _ hw]
      have hmod : (s.length + 1) % w = 0 := by
        rw [hlw]; exact Nat.mul_mod_right w _
      have hdropnew : (s ++ [c]).drop (w * ((s.length + 1) / w)) = [] := by
        rw [hdiv, ← hlw]
        rw [show s.length + 1 = (s ++ [c]).length by simp]
        exact List.drop_length _
      refine ⟨hpn, ?_, ?_, ?_, ?_⟩
      · rw [hps, hLb, updateLast_concat]
        simp only [List.length_append, List.length_singleton, hdiv]
        omega
      · rw [hpc]
        simp only [List.length_append, List.length_singleton, hmod]
      · rw [hps, hLb, updateLast_concat]
        simp only [List.length_append, List.length_singleton]
        rw [hdropnew, List.getLast?_concat]
      · rw [hps, hLb, updateLast_concat, ← hflat']
        simp only [List.flatten_append, List.flatten_cons, List.flatten_nil,
          List.append_nil, List.append_assoc]
    · -- no wrap: the character is appended and the column advances by one
      rw [if_neg hwrap] at hps hpc
      have hr1 : s.length % w + 1 < w := by
        rcases Nat.lt_or_ge (s.length % w + 1) w with h | h
        · exact h
        · exfalso; rw [hcol'] at hwrap; omega
      have hlw : s.length + 1 = w * (s.length / w) + (s.length % w + 1) := by
        omega
      have hdiv : (s.length + 1) / w = s.length / w := by
        rw [hlw, Nat.mul_add_div hw, Nat.div_eq_of_lt hr1, Nat.add_zero]
      have hmod : (s.length + 1) % w = s.length % w + 1 := by
        rw [hlw, Nat.mul_add_mod, Nat.mod_eq_of_lt hr1]
      have hdropnew : (s ++ [c]).drop (w * ((s.length + 1) / w)) =
          s.drop (w * (s.length / w)) ++ [c] := by
        rw [hdiv]
        exact List.drop_append_of_le_length (by omega)
      refine ⟨hpn, ?_, ?_, ?_, ?_⟩
      · rw [hps, hLb, updateLast_concat]
        simp only [List.length_append, List.length_singleton, hdiv]
        omega
      · rw [hpc, hcol']
        simp only [List.length_append, List.length_singleton, hmod]
      · rw [hps, hLb, updateLast_concat]
        simp only [List.length_append, List.length_singleton]
        rw [hdropnew, ← hb', List.getLast?_concat]
      · rw [hps, hLb, updateLast_concat, ← hflat']
        simp only [List.flatten_append, List.flatten_cons, List.flatten_nil,
          List.append_nil, List.append_assoc]

theorem eq_singleton_of_length_getLast (L : List (List Char)) (x : List Char)
    (h1 : L.length = 1) (h2 : L.getLast? = some x) : L = [x] := by
  cases L with
  | nil => simp at h1
  | cons a l =>
    cases l with
    | nil =>
      have hax : a = x := by simpa using h2
      rw [hax]
    | cons b l' => simp at h1

theorem freshTile_inner_size (w hgt : Nat) :
    (freshTile w hgt).inner_size = (w, hgt) := by
  simp [freshTile, build]

/-- C1: pushing plain characters (no escapes, no line feeds, no carriage
returns) into a fresh tile of inner width `w ≥ 1`: an input shorter than
`w` yields exactly one logical line holding it verbatim, and an input of
length `k * w + r` with `0 < r < w` yields `k + 1` logical lines, the
last of length `r`. -/
theorem push_plain_wrap_count (w hgt : Nat) (hw : 1 ≤ w) (s : List Char)
    (hs : ∀ c ∈ s, PlainChar c) :
    (s.length < w → (push_stdout (freshTile w hgt) s).stdout = [s]) ∧
    ∀ k r : Nat, 0 < r → r < w → s.length = k * w + r →
      (push_stdout (freshTile w hgt) s).stdout.length = k + 1 ∧
      ((push_stdout (freshTile w hgt) s).stdout.getLast?).map List.length =
        some r := by
  obtain ⟨hcnt, hlen, hcol, hlast, hflat⟩ :=
    plain_fold_spec w hgt hw s hs (freshTile w hgt) rfl rfl rfl
      (freshTile_inner_size w hgt)
  rw [push_stdout_stdout] at *
  constructor
  · intro hshort
    have hdiv : s.length / w = 0 := Nat.div_eq_of_lt hshort
    rw [hdiv] at hlen hlast
    rw [Nat.mul_zero, List.drop_zero] at hlast
    exact eq_singleton_of_length_getLast _ s hlen hlast
  · intro k r hr hrw hk
    have hk' : s.length = w * k + r := by rw [hk, Nat.mul_comm]
    have hdiv : s.length / w = k := by
      rw [hk', Nat.mul_add_div hw, Nat.div_eq_of_lt hrw, Nat.add_zero]
    rw [hdiv] at hlen hlast
    refine ⟨hlen, ?_⟩
    have hdl : (s.drop (w * k)).length = r := by
      rw [List.length_drop]; omega
    rw [hlast]
    simp [hdl]

/-- Witness for C1: two characters at width 3 stay on one line; three
characters at width 2 split as `k = 1, r = 1`. -/
theorem push_plain_wrap_count_witness :
    (push_stdout (freshTile 3 1) ['a', 'b']).stdout = [['a', 'b']] ∧
    (push_stdout (freshTile 2 1) ['a', 'b', 'c']).stdout.length = 2 ∧
    ((push_stdout (freshTile 2 1) ['a', 'b', 'c']).stdout.getLast?).map
        List.length = some 1 :=
  ⟨(push_plain_wrap_count 3 1 (by decide) ['a', 'b'] (by decide)).1
      (by decide),
   ((push_plain_wrap_count 2 1 (by decide) ['a', 'b', 'c'] (by decide)).2
      1 1 (by decide) (by decide) (by decide)).1,
   ((push_plain_wrap_count 2 1 (by decide) ['a', 'b', 'c'] (by decide)).2
      1 1 (by decide) (by decide) (by decide)).2⟩

/-- C2 counterexample: pushing exactly `inner_width` (here 2) plain
characters into a fresh tile does NOT leave a single logical line: the
wrap fires as soon as the counter reaches the width, leaving two logical
lines, the second empty. -/
theorem push_fill_single_line_counterexample :
    (push_stdout (freshTile 2 1) ['a', 'b']).stdout = [['a', 'b'], []] ∧
    (push_stdout (freshTile 2 1) ['a', 'b']).stdout.length ≠ 1 := by
  decide

/-- C2 amended: `push_stdout` wraps on fill, not on overflow: pushing
exactly `inner_width` plain characters into a fresh tile leaves the
buffer with two logical lines, the first holding the characters verbatim
and the second empty. -/
theorem push_fill_wrap_on_fill (w hgt : Nat) (hw : 0 < w) (s : List Char)
    (hs : ∀ c ∈ s, PlainChar c) (hlen : s.length = w) :
    (push_stdout (freshTile w hgt) s).stdout = [s, []] := by
  obtain ⟨hcnt, hl, hcol, hlast, hflat⟩ :=
    plain_fold_spec w hgt hw s hs (freshTile w hgt) rfl rfl rfl
      (freshTile_inner_size w hgt)
  rw [push_stdout_stdout]
  have h2 : (s.foldl pushChar (freshTile w hgt)).stdout.length = 2 := by
    rw [hl, hlen, Nat.div_self hw]
  have hl2 : (s.foldl pushChar (freshTile w hgt)).stdout.getLast? =
      some [] := by
    rw [hlast, hlen, Nat.div_self hw, Nat.mul_one, ← hlen, List.drop_length]
  obtain ⟨a, b, hab⟩ := List.length_eq_two.mp h2
  rw [hab] at hl2 hflat ⊢
  have hb0 : b = [] := by simpa using hl2
  subst hb0
  have ha : a = s := by simpa using hflat
  rw [ha]

/-- Witness for C2's amended statement at width 2. -/
theorem push_fill_wrap_on_fill_witness :
    (push_stdout (freshTile 2 1) ['x', 'y']).stdout = [['x', 'y'], []] :=
  push_fill_wrap_on_fill 2 1 (by decide) ['x', 'y'] (by decide) (by decide)

/-- C3 counterexample: `'世'` (U+4E16) has East-Asian display width 2,
yet `push_stdout` advances the write column counter by 1, not 2. -/
theorem push_width_counterexample :
    (push_stdout (freshTile 10 1) ['世']).column_number = 1 ∧
    (push_stdout (freshTile 10 1) ['世']).column_number ≠ 2 := by
  decide

/-- C3 amended: while counting (not inside an escape sequence), every
character other than `\n`, `\r`, `ESC` advances the write column counter
of `push_stdout` by exactly one (resetting to 0 when it fills the inner
width), regardless of its display width; variation selectors
U+FE00–U+FE0F leave the counter unchanged.  Display-width accounting is
applied only at render time. -/
theorem push_column_advance (t : Tile) (c : Char) (hcnt : t.counting = true)
    (h1 : c ≠ '\x1b') (h2 : c ≠ '\n') (h3 : c ≠ '\r') :
    (isVariationSelector c = false →
      (pushChar t c).column_number =
        if t.column_number + 1 = t.inner_size.1 then 0
        else t.column_number + 1) ∧
    (isVariationSelector c = true →
      (pushChar t c).column_number = t.column_number) := by
  constructor
  · intro hvs
    exact (pushChar_plain t c ⟨h1, h2, h3, hvs⟩ hcnt).2.1
  · intro hvs
    simp only [pushChar, if_neg h1, if_neg h2, if_neg h3, hvs,
      Bool.not_true, Bool.and_false]
    split_ifs <;> simp_all

/-- Witness for C3's amended statement: `'a'` advances the counter, the
variation selector U+FE00 does not. -/
theorem push_column_advance_witness :
    (pushChar wTile 'a').column_number =
      (if wTile.column_number + 1 = wTile.inner_size.1 then 0
       else wTile.column_number + 1) ∧
    (pushChar wTile (Char.ofNat 0xfe00)).column_number =
      wTile.column_number :=
  ⟨(push_column_advance wTile 'a' rfl (by decide) (by decide)
      (by decide)).1 (by decide),
   (push_column_advance wTile (Char.ofNat 0xfe00) rfl (by decide)
      (by decide) (by decide)).2 (by decide)⟩

/-- C4, evaluated at the failing input: a fresh tile of inner width 5
receives `"ab"` (leaving `column_number = 2`), then is resized to inner
width 2.  `Tile::resize` re-flows into `["ab"]` because the stale
`column_number` makes the wrap test `column_number == inner_width` never
hit 2 again, whereas pushing the same raw content at width 2 from the
start produces `["ab", ""]`.  The resize re-flow round-trip therefore
fails: `resize` replaces the buffer but forgets to reset `column_number`
(and `counting`). -/
theorem resize_reflow_diverges :
    (push_stdout (freshTile 5 6) ['a', 'b']).column_number = 2 ∧
    (resize (push_stdout (freshTile 5 6) ['a', 'b']) (6, 6)).inner_size =
      (2, 1) ∧
    (resize (push_stdout (freshTile 5 6) ['a', 'b']) (6, 6)).stdout =
      [['a', 'b']] ∧
    (push_stdout (freshTile 2 1) ['a', 'b']).stdout = [['a', 'b'], []] ∧
    (resize (push_stdout (freshTile 5 6) ['a', 'b']) (6, 6)).stdout ≠
      (push_stdout (freshTile 2 1) ['a', 'b']).stdout := by
  decide

/-! ## Claim C8 support: the copy extraction loop -/

theorem copy_swap (t : Tile) (a b : Nat × Nat) :
    copy { t with clicked := some a, released := some b } =
      copy { t with clicked := some b, released := some a } := by
  obtain ⟨a1, a2⟩ := a
  obtain ⟨b1, b2⟩ := b
  by_cases hab : ((a1, a2) : Nat × Nat) = (b1, b2)
  · obtain ⟨h1, h2⟩ := Prod.mk.injEq .. ▸ hab
    subst h1; subst h2; rfl
  · have hba : ¬(((b1, b2) : Nat × Nat) = (a1, a2)) := fun h => hab h.symm
    simp only [copy]
    rw [if_neg hab, if_neg hba]
    rcases Nat.lt_trichotomy a1 b1 with h | h | h
    · simp [h, Nat.lt_asymm h]
      rfl
    · subst h
      have hne : a2 ≠ b2 := fun h => hab (by rw [h])
      rcases Nat.lt_trichotomy a2 b2 with h2 | h2 | h2
      · simp [lt_irrefl, h2, Nat.lt_asymm h2]
        rfl
      · exact absurd h2 hne
      · simp [lt_irrefl, h2, Nat.lt_asymm h2]
        rfl
    · simp [h, Nat.lt_asymm h]
      rfl

theorem copy_degenerate (t : Tile) (p : Nat × Nat) :
    copy { t with clicked := some p, released := some p } = [] := by
  simp [copy]

theorem copyLine_cr_clears (li ll cs ce tcr : Nat) (st : CopySt) (cr : Nat)
    (hcnt : st.counting = true) (hskip : ¬(li = 0 ∧ st.count + 1 ≤ cs)) :
    (copyLine li ll cs ce tcr st cr ['\r']).buffers =
      updateLast (fun _ => []) st.buffers := by
  rw [copyLine, if_neg hskip]
  simp [hcnt]
  split <;> rfl

theorem copyLine_notCounting_mid (li ll cs ce tcr : Nat) (e : Char)
    (he : e = 'm' ∨ e = 'K') :
    ∀ (mid : List Char) (st : CopySt) (cr : Nat), st.counting = false →
      (∀ c ∈ mid, ¬(c = 'm' ∨ c = 'K')) →
      (copyLine li ll cs ce tcr st cr (mid ++ [e])).buffers =
        st.buffers := by
  intro mid
  induction mid with
  | nil =>
    intro st cr h _
    rw [List.nil_append, copyLine]
    by_cases hskip : li = 0 ∧ st.count + 1 ≤ cs
    · rw [if_pos hskip, copyLine]
    · rw [if_neg hskip]
      rcases he with he | he <;> subst he <;>
      · simp [h]
        split <;> rfl
  | cons c rest ih =>
    intro st cr h hmk
    have hc : ¬(c = 'm' ∨ c = 'K') := hmk c (List.mem_cons_self c rest)
    rw [List.cons_append, copyLine]
    by_cases hskip : li = 0 ∧ st.count + 1 ≤ cs
    · rw [if_pos hskip]
      exact ih { st with count := st.count + 1 } _ h
        fun x hx => hmk x (List.mem_cons_of_mem c hx)
    · rw [if_neg hskip]
      simp only [h, ite_self, if_neg hc, Bool.false_eq_true, if_false]
      split <;>
      · split
        · rfl
        · refine ih _ _ ?_ fun x hx => hmk x (List.mem_cons_of_mem c hx)
          rfl

theorem copyLine_escape_skipped (li ll cs ce tcr : Nat) (st : CopySt)
    (cr : Nat) (mid : List Char) (e : Char) (he : e = 'm' ∨ e = 'K')
    (hmk : ∀ c ∈ mid, ¬(c = 'm' ∨ c = 'K'))
    (hskip : ¬(li = 0 ∧ st.count + 1 ≤ cs)) :
    (copyLine li ll cs ce tcr st cr ('\x1b' :: (mid ++ [e]))).buffers =
      st.buffers := by
  rw [copyLine, if_neg hskip]
  simp
  split
  · rfl
  · refine copyLine_notCounting_mid li ll cs ce tcr e he mid _ _ ?_ hmk
    rfl

/-- C8: the copy operation normalizes the anchor/cursor pair at copy time
(it is invariant under swapping `clicked` and `released`), extracts
nothing from a degenerate selection, and during extraction a carriage
return clears the accumulated line text while all characters of an escape
sequence (from `ESC` to its `m`/`K` terminator) contribute nothing to the
extracted text. -/
theorem copy_selection_spec :
    (∀ (t : Tile) (a b : Nat × Nat),
        copy { t with clicked := some a, released := some b } =
          copy { t with clicked := some b, released := some a }) ∧
    (∀ (t : Tile) (p : Nat × Nat),
        copy { t with clicked := some p, released := some p } = []) ∧
    (∀ (li ll cs ce tcr : Nat) (st : CopySt) (cr : Nat),
        st.counting = true → ¬(li = 0 ∧ st.count + 1 ≤ cs) →
        (copyLine li ll cs ce tcr st cr ['\r']).buffers =
          updateLast (fun _ => []) st.buffers) ∧
    ∀ (li ll cs ce tcr : Nat) (st : CopySt) (cr : Nat) (mid : List Char)
      (e : Char), e = 'm' ∨ e = 'K' →
      (∀ c ∈ mid, ¬(c = 'm' ∨ c = 'K')) → ¬(li = 0 ∧ st.count + 1 ≤ cs) →
      (copyLine li ll cs ce tcr st cr ('\x1b' :: (mid ++ [e]))).buffers =
        st.buffers :=
  ⟨copy_swap, copy_degenerate, copyLine_cr_clears,
   fun li ll cs ce tcr st cr mid e he hmk hskip =>
     copyLine_escape_skipped li ll cs ce tcr st cr mid e he hmk hskip⟩

/-- Witness for C8 at concrete selections and loop states. -/
theorem copy_selection_spec_witness :
    copy { wTile with clicked := some (0, 1), released := some (2, 3) } =
      copy { wTile with clicked := some (2, 3), released := some (0, 1) } ∧
    copy { wTile with clicked := some (1, 1), released := some (1, 1) } =
      [] ∧
    (copyLine 1 2 0 9 0 ⟨[['a']], true, 0⟩ 0 ['\r']).buffers =
      updateLast (fun _ => []) [['a']] ∧
    (copyLine 1 2 0 9 0 ⟨[['a']], true, 0⟩ 0
        ('\x1b' :: (['['] ++ ['m']))).buffers = [['a']] :=
  ⟨copy_selection_spec.1 wTile (0, 1) (2, 3),
   copy_selection_spec.2.1 wTile (1, 1),
   copy_selection_spec.2.2.1 1 2 0 9 0 ⟨[['a']], true, 0⟩ 0 rfl (by decide),
   copy_selection_spec.2.2.2 1 2 0 9 0 ⟨[['a']], true, 0⟩ 0 ['['] 'm'
     (Or.inl rfl) (by decide) (by decide)⟩

end Tileview
